import Mathlib

/-- A UTF-8 continuation byte, `0x80`–`0xBF`. -/
def contB (b : ℕ) : Bool := decide (128 ≤ b ∧ b < 192)

/-- Strict UTF-8 decoding of one scalar value from the front of a byte list:
returns the code point and the number of bytes consumed, or `none` if the
bytes do not start with a complete, valid, shortest-form, non-surrogate
UTF-8 sequence (the failures Python raises `UnicodeDecodeError` for). -/
def decodeOne : List ℕ → Option (ℕ × ℕ)
  | [] => none
  | b1 :: rest =>
    if b1 < 128 then some (b1, 1)
    else if b1 < 194 then none
    else if b1 < 224 then
      match rest with
      | b2 :: _ => if contB b2 then some ((b1 - 192) * 64 + (b2 - 128), 2) else none
      | [] => none
    else if b1 < 240 then
      match rest with
      | b2 :: b3 :: _ =>
        if contB b2 ∧ contB b3 ∧ (b1 = 224 → 160 ≤ b2) ∧ (b1 = 237 → b2 < 160) then
          some ((b1 - 224) * 4096 + (b2 - 128) * 64 + (b3 - 128), 3)
        else none
      | _ => none
    else if b1 < 245 then
      match rest with
      | b2 :: b3 :: b4 :: _ =>
        if contB b2 ∧ contB b3 ∧ contB b4 ∧ (b1 = 240 → 144 ≤ b2) ∧ (b1 = 244 → b2 < 144) then
          some ((b1 - 240) * 262144 + (b2 - 128) * 4096 + (b3 - 128) * 64 + (b4 - 128), 4)
        else none
      | _ => none
    else none

/-- Fuel-driven strict UTF-8 decoder; with fuel at least the length of the
input it decodes the whole byte list greedily, one scalar at a time. -/
def utf8DGo : ℕ → List ℕ → Option (List ℕ)
  | _, [] => some []
  | 0, _ :: _ => none
  | fuel + 1, b :: l =>
    match decodeOne (b :: l) with
    | some (c, k) => (utf8DGo fuel ((b :: l).drop k)).map (c :: ·)
    | none => none

/-- Strict UTF-8 decoding of a byte list to code points; `none` models a
`UnicodeDecodeError` from Python's `bytes.decode(..., "strict")`. -/
def utf8D (l : List ℕ) : Option (List ℕ) := utf8DGo l.length l

/-- Fuel-driven lenient UTF-8 decoder: like `utf8DGo`, but an invalid or
incomplete sequence produces the replacement character U+FFFD and decoding
resumes at the next byte.  This models Python's `errors="replace"` (used by
`ENCODER.decode` without a `"strict"` argument); the granularity of
replacement for invalid input is approximated (one replacement per skipped
byte rather than per maximal invalid subpart), which is irrelevant here
because on valid input — the only case reachable from a validly encoded
response text — it agrees with the strict decoder (`utf8DLenient_agrees`). -/
def utf8DLenientGo : ℕ → List ℕ → List ℕ
  | _, [] => []
  | 0, _ :: _ => []
  | fuel + 1, b :: l =>
    match decodeOne (b :: l) with
    | some (c, k) => c :: utf8DLenientGo fuel ((b :: l).drop k)
    | none => 65533 :: utf8DLenientGo fuel l

/-- Lenient UTF-8 decoding (Python `bytes.decode` with `errors="replace"`). -/
def utf8DLenient (l : List ℕ) : List ℕ := utf8DLenientGo l.length l

/-- Observable effects of the streaming generator on the response stream:
a call to `time.sleep(d)` (line 170) or a yielded SSE chunk carrying the
decoded chunk text (lines 194 and 205); chunk text as code points. -/
inductive Event where
  | sleep (d : ℚ)
  | emit (chunk : List ℕ)
deriving DecidableEq, Repr

/-- Console-logging effects of the generator (all the `print` calls gated by
`debug_mode`); payloads record the data being printed.  The timing payloads
of the post-loop progress print (lines 212–214) and of the final statistics
print (lines 217–222) are summarised by the token counter they report. -/
inductive LogEntry where
  | start (model : String) (speed : ℚ) (total : ℕ)
  | ahead (tokensAhead delay : ℚ)
  | behind (tokensBehind : ℚ)
  | finalStats (sent : ℕ)
deriving DecidableEq, Repr

/-- Mutable loop state of `_generate_streaming_response`:
`token_buffer` (as the byte sequences of the buffered tokens),
`tokens_sent`, and `last_delay`. -/
structure LoopState where
  buffer : List (List ℕ)
  tokensSent : ℕ
  lastDelay : ℚ
deriving DecidableEq, Repr

/-- The rate controller: lines 155–181 of `server.py`.  Given the elapsed
time read at the top of the loop iteration, decides the sleep performed
before emitting (`some d` models `time.sleep(d)`, `none` models no sleep
call), the new value of `last_delay`, and the debug log entries printed. -/
def rateControl (debug : Bool) (smoothing_factor rate lastDelay : ℚ)
    (tokensSent : ℕ) (elapsed : ℚ) : Option ℚ × ℚ × List LogEntry :=
  let expected := elapsed * rate
  if (tokensSent : ℚ) > expected then
    let tokensAhead := (tokensSent : ℚ) - expected
    let rawDelay := tokensAhead / rate
    let dynamicDelay := smoothing_factor * lastDelay + (1 - smoothing_factor) * rawDelay
    let actualDelay := max dynamicDelay 0
    (some actualDelay, actualDelay,
      if debug ∧ tokensSent % 10 = 0 then [LogEntry.ahead tokensAhead actualDelay] else [])
  else if (tokensSent : ℚ) < expected - 2 then
    (none, lastDelay,
      if debug ∧ tokensSent % 10 = 0 then [LogEntry.behind (expected - (tokensSent : ℚ))] else [])
  else
    (none, lastDelay, [])

/-- One iteration of the `while i < len(tokens)` loop (lines 154–198):
run the rate controller at the observed elapsed time, append the next token
to the buffer, try a strict decode of the buffer, and on success yield the
chunk and reset the buffer. -/
def genIter (debug : Bool) (smoothing_factor rate : ℚ) (elapsed : ℚ)
    (s : LoopState) (tok : List ℕ) : (List Event × List LogEntry) × LoopState :=
  let rc := rateControl debug smoothing_factor rate s.lastDelay s.tokensSent elapsed
  let sleepEvs : List Event := match rc.1 with
    | some d => [Event.sleep d]
    | none => []
  let buf2 := s.buffer ++ [tok]
  match utf8D buf2.flatten with
  | some chunk =>
      ((sleepEvs ++ [Event.emit chunk], rc.2.2),
        ⟨[], s.tokensSent + buf2.length, rc.2.1⟩)
  | none => ((sleepEvs, rc.2.2), ⟨buf2, s.tokensSent, rc.2.1⟩)

/-- The generator's main loop over the token sequence; `clock n` is the
elapsed wall-clock time `time.time() - start_time` observed at the start of
iteration `n` (line 156). -/
def genLoop (debug : Bool) (smoothing_factor rate : ℚ) (clock : ℕ → ℚ) :
    ℕ → LoopState → List (List ℕ) → (List Event × List LogEntry) × LoopState
  | _, s, [] => (([], []), s)
  | iter, s, tok :: rest =>
    let r := genIter debug smoothing_factor rate (clock iter) s tok
    let r2 := genLoop debug smoothing_factor rate clock (iter + 1) r.2 rest
    ((r.1.1 ++ r2.1.1, r.1.2 ++ r2.1.2), r2.2)

/-- The flush of any remaining buffered tokens after the loop
(lines 202–209): a lenient decode of the buffer, yielded as a final chunk.
Returns the events together with the final value of `tokens_sent`. -/
def genFinal (s : LoopState) : List Event × ℕ :=
  if s.buffer = [] then ([], s.tokensSent)
  else ([Event.emit (utf8DLenient s.buffer.flatten)], s.tokensSent + s.buffer.length)

/-- `MODEL_OUTPUT_SPEEDS` (lines 21–36): tokens per second per model. -/
def MODEL_OUTPUT_SPEEDS : List (String × ℚ) :=
  [("slow", 15), ("o1", 40), ("deepseek-chat", 38), ("gpt-4o", 86), ("o3-mini", 105),
   ("deepseek-ai/DeepSeek-R1", 38), ("TA/deepseek-ai/DeepSeek-R1", 76),
   ("claude-3-5-sonnet", 55), ("claude-3-7-sonnet-20250219", 55),
   ("gemini-2.0-flash-thinking-exp-01-21", 200), ("gemini-2.0-flash-001", 170),
   ("gpt-4.5-preview", 14), ("claude-3-opus", 30), ("ark-deepseek-r1-250120", 57/2)]

/-- `DEFAULT_OUTPUT_SPEED` (line 39). -/
def DEFAULT_OUTPUT_SPEED : ℚ := 40

/-- Python substring containment `needle in hay` (also models the SQL
`LIKE '%needle%'` pattern for wildcard-free needles; SQLite's ASCII case
folding for `LIKE` is not modelled, no claim depends on it). -/
def strContains (hay needle : String) : Bool := decide (needle.data <:+: hay.data)

/-- Resolution of the target output speed from the model name
(lines 134–136): dictionary lookup with a default, then the `"slow"`
marker override. -/
def resolveSpeed (model_name : String) : ℚ :=
  let output_speed := (List.lookup model_name MODEL_OUTPUT_SPEEDS).getD DEFAULT_OUTPUT_SPEED
  if strContains model_name "slow" then (List.lookup "slow" MODEL_OUTPUT_SPEEDS).getD DEFAULT_OUTPUT_SPEED
  else output_speed

/-- The whole streaming generator `_generate_streaming_response`
(lines 115–222), as the stream of sleep/yield events and the console log it
produces.  `toks` is `ENCODER.encode(response_text)`, each token given by
its byte sequence; `clock` gives the elapsed time observed at each loop
iteration.  The post-loop debug prints yield nothing to the stream; their
log entries are summarised (see `LogEntry`). -/
def generate_streaming_response (model_name : String) (debug_mode : Bool)
    (smoothing_factor : ℚ) (clock : ℕ → ℚ) (toks : List (List ℕ)) :
    List Event × List LogEntry :=
  let output_speed := resolveSpeed model_name
  let startLogs := if debug_mode then [LogEntry.start model_name output_speed toks.length] else []
  let r := genLoop debug_mode smoothing_factor output_speed clock 0 ⟨[], 0, 0⟩ toks
  let f := genFinal r.2
  let finalLogs := if debug_mode then [LogEntry.finalStats f.2] else []
  (r.1.1 ++ f.1, startLogs ++ r.1.2 ++ finalLogs)

/-- The concatenation, in emission order, of the chunk texts of the emitted
events (the SSE `content` fields). -/
def contentsOf : List Event → List ℕ
  | [] => []
  | Event.emit c :: es => c ++ contentsOf es
  | Event.sleep _ :: es => contentsOf es

/-- Whether an event is a `time.sleep` call. -/
def Event.isSleep : Event → Bool
  | Event.sleep _ => true
  | Event.emit _ => false

/-- A row of the `conversations` table as seen by the replay engine. -/
structure Conversation where
  model_name : String
  prompt : String
  response : String
deriving DecidableEq, Repr

/-- `ConversationDB.search_conversations` (`database.py`, lines 200–244).
The table is represented as the list of rows already in the most-recent-first
order produced by `ORDER BY c.timestamp DESC`; the SQL
`WHERE c.prompt LIKE '%query%' OR c.response LIKE '%query%'` filters rows
whose prompt or response contains the query as a substring, and
`LIMIT ? OFFSET ?` keeps a window of the results. -/
def search_conversations (db : List Conversation) (query : String)
    (limit offset : ℕ) : List Conversation :=
  ((db.filter
      (fun c => strContains c.prompt query || strContains c.response query)).drop offset).take limit

/-- An HTTP error raised by the endpoint (`fastapi.HTTPException`). -/
structure HTTPErr where
  status_code : ℕ
  detail : String
deriving DecidableEq, Repr

/-- `_find_matching_response` (`server.py`, lines 83–112): search the store
for the prompt (the call `db.search_conversations(query=prompt)` uses the
default `limit=100, offset=0`), keep conversations whose stored model name
is contained in the requested model name, and return the response of the
first one, or raise a 404. -/
def find_matching_response (db : List Conversation) (prompt model_name : String) :
    Except HTTPErr String :=
  let conversations := search_conversations db prompt 100 0
  let matching_conversations :=
    conversations.filter (fun c => strContains model_name c.model_name)
  match matching_conversations with
  | [] => Except.error ⟨404, "Model and prompt not found in database"⟩
  | c :: _ => Except.ok c.response

/-- The parsed request body consumed by `chat_completions`
(lines 59–66): `prompt = data['messages'][0]['content']`,
`model = data['model']`, and the optional fields after their
`data.get` defaults (`debug_mode=False`, `smoothing_factor=0.7`)
have been applied. -/
structure ChatRequest where
  prompt : String
  model : String
  debug_mode : Bool
  smoothing_factor : ℚ
deriving DecidableEq, Repr

/-- The `StreamingResponse` constructed on lines 72–80: the generator
`_generate_streaming_response(response_text, model_name, debug_mode=...,
smoothing_factor=...)` with its arguments as wired by the endpoint. -/
structure StreamPlan where
  response_text : String
  model_name : String
  debug_mode : Bool
  smoothing_factor : ℚ
deriving DecidableEq, Repr

/-- The `/chat/completions` endpoint `chat_completions` (lines 45–80):
look the prompt/model pair up and either raise the 404 or return the
streaming response.  No parameter validation of any kind is performed. -/
def chat_completions (db : List Conversation) (req : ChatRequest) :
    Except HTTPErr StreamPlan :=
  match find_matching_response db req.prompt req.model with
  | Except.error e => Except.error e
  | Except.ok response_text =>
      Except.ok ⟨response_text, req.model, req.debug_mode, req.smoothing_factor⟩

/-- Lower-case hexadecimal digit. -/
def hexDigit (n : ℕ) : Char := if n < 10 then Char.ofNat (48 + n) else Char.ofNat (87 + n)

/-- Four lower-case hexadecimal digits, as in Python's `\uXXXX` escapes. -/
def hex4 (n : ℕ) : String :=
  String.mk [hexDigit (n / 4096 % 16), hexDigit (n / 256 % 16), hexDigit (n / 16 % 16),
    hexDigit (n % 16)]

/-- The escaping Python's `json.dumps` (default `ensure_ascii=True`) applies
to one character of a string: short escapes for `"`, backslash and the five
control characters that have them, `\uXXXX` for the other control characters
and for every non-ASCII character (with surrogate pairs above U+FFFF),
everything else verbatim. -/
def jsonEscapeChar (c : Char) : String :=
  let n := c.toNat
  if n = 34 then "\\\""
  else if n = 92 then "\\\\"
  else if n = 8 then "\\b"
  else if n = 9 then "\\t"
  else if n = 10 then "\\n"
  else if n = 12 then "\\f"
  else if n = 13 then "\\r"
  else if n < 32 then "\\u" ++ hex4 n
  else if n < 127 then String.singleton c
  else if n < 65536 then "\\u" ++ hex4 n
  else
    "\\u" ++ hex4 (55296 + (n - 65536) / 1024) ++ "\\u" ++ hex4 (56320 + (n - 65536) % 1024)

/-- Python `json.dumps` applied to a string value. -/
def pyJsonOfString (s : String) : String :=
  "\"" ++ String.join (s.data.map jsonEscapeChar) ++ "\""

/-- A JSON value of the shapes `_format_sse_message` builds. -/
inductive JValue where
  | str (s : String)
  | arr (items : List JValue)
  | obj (fields : List (String × JValue))

/-- Python `json.dumps` with its default separators `(', ', ': ')` and
default `ensure_ascii=True`.  The fuel argument bounds the nesting depth of
containers (strings need none); every call in this file passes fuel larger
than the depth of its fixed-shape argument, so the out-of-fuel branch is
never reached. -/
def jdump : ℕ → JValue → String
  | _, JValue.str s => pyJsonOfString s
  | 0, JValue.arr _ => ""
  | 0, JValue.obj _ => ""
  | fuel + 1, JValue.arr items =>
      "[" ++ String.intercalate ", " (items.map (jdump fuel)) ++ "]"
  | fuel + 1, JValue.obj fields =>
      "\x7b" ++
        String.intercalate ", "
          (fields.map (fun f => pyJsonOfString f.1 ++ ": " ++ jdump fuel f.2)) ++
      "\x7d"

/-- `_format_sse_message(content)` (lines 238–257): serialise
`{'choices': [{'delta': {'content': content}}]}` with `json.dumps` and wrap
it in an SSE `data:` line with a blank line after it. -/
def format_sse_message (content : String) : String :=
  let data := JValue.obj [("choices",
    JValue.arr [JValue.obj [("delta", JValue.obj [("content", JValue.str content)])]])]
  "data: " ++ jdump 4 data ++ "\n\n"

/-- The wire shape asserted by the spec (§6, "exact shape"), transcribed
from the spec's words: no spaces after `:` or inside the brackets. -/
def sse_shape_spec (serialized_text : String) : String :=
  "data: \x7b\"choices\":[\x7b\"delta\":\x7b\"content\":" ++ serialized_text ++
    "\x7d\x7d]\x7d\n\n"

/-- `tokens_sent` as observed at the top of loop iteration `n` of a run
(equivalently, after the first `n` iterations): by `genLoop_append`, running
the loop on the first `n` tokens reaches exactly the state the full run has
at iteration `n`. -/
def sentAfter (debug : Bool) (sf rate : ℚ) (clock : ℕ → ℚ)
    (toks : List (List ℕ)) (n : ℕ) : ℕ :=
  ((genLoop debug sf rate clock 0 ⟨[], 0, 0⟩ (toks.take n)).2).tokensSent

/-- The Response Locator selection policy in the form the amended claim
states it (transcribed from the amended claim, for comparison with
`find_matching_response`): the first recorded exchange, in the store's
most-recent-first order, whose prompt **or response** contains the request
prompt as a substring and whose stored model name is a substring of the
requested model identifier. -/
def locator_policy (db : List Conversation) (prompt model_name : String) :
    Except HTTPErr String :=
  match db.find? (fun c => strContains model_name c.model_name &&
      (strContains c.prompt prompt || strContains c.response prompt)) with
  | some c => Except.ok c.response
  | none => Except.error ⟨404, "Model and prompt not found in database"⟩

/-! ### Lemmas and claims -/

theorem decodeOne_pos {l : List ℕ} {c k : ℕ} (h : decodeOne l = some (c, k)) :
    1 ≤ k ∧ k ≤ l.length := by
  match l with
  | [] => simp [decodeOne] at h
  | [b1] =>
    simp only [decodeOne] at h
    split_ifs at h <;> simp_all <;> omega
  | [b1, b2] =>
    simp only [decodeOne] at h
    split_ifs at h <;> simp_all <;> omega
  | [b1, b2, b3] =>
    simp only [decodeOne] at h
    split_ifs at h <;> simp_all <;> omega
  | b1 :: b2 :: b3 :: b4 :: r =>
    simp only [decodeOne] at h
    split_ifs at h <;> simp_all <;> omega

theorem decodeOne_append {l l' : List ℕ} {c k : ℕ} (h : decodeOne l = some (c, k)) :
    decodeOne (l ++ l') = some (c, k) := by
  match l with
  | [] => simp [decodeOne] at h
  | [b1] =>
    simp only [decodeOne] at h
    simp only [List.cons_append, List.nil_append, decodeOne]
    split_ifs at h ⊢ <;> first | exact h | simp at h
  | [b1, b2] =>
    simp only [decodeOne] at h
    simp only [List.cons_append, List.nil_append, decodeOne]
    split_ifs at h ⊢ <;> first | exact h | simp at h
  | [b1, b2, b3] =>
    simp only [decodeOne] at h
    simp only [List.cons_append, List.nil_append, decodeOne]
    split_ifs at h ⊢ <;> first | exact h | simp at h
  | b1 :: b2 :: b3 :: b4 :: r =>
    simp only [decodeOne] at h
    simp only [List.cons_append, decodeOne]
    split_ifs at h ⊢ <;> first | exact h | simp at h

theorem utf8DGo_fuel : ∀ (f1 f2 : ℕ) (l : List ℕ),
    l.length ≤ f1 → l.length ≤ f2 → utf8DGo f1 l = utf8DGo f2 l := by
  intro f1
  induction f1 with
  | zero =>
    intro f2 l h1 _
    have : l = [] := List.eq_nil_of_length_eq_zero (Nat.le_zero.mp h1)
    subst this
    cases f2 <;> rfl
  | succ f ih =>
    intro f2 l h1 h2
    match l with
    | [] => cases f2 <;> rfl
    | b :: r =>
      match f2 with
      | 0 => simp at h2
      | f2' + 1 =>
        cases hdec : decodeOne (b :: r) with
        | none => simp [utf8DGo, hdec]
        | some ck =>
          obtain ⟨c, k⟩ := ck
          have hk := decodeOne_pos hdec
          have hlen : ((b :: r).drop k).length ≤ f := by
            simp only [List.length_drop]
            simp only [List.length_cons] at h1 ⊢
            omega
          have hlen2 : ((b :: r).drop k).length ≤ f2' := by
            simp only [List.length_drop]
            simp only [List.length_cons] at h2 ⊢
            omega
          simp only [utf8DGo, hdec]
          rw [ih f2' _ hlen hlen2]

theorem utf8D_decode {l : List ℕ} {c k : ℕ} (h : decodeOne l = some (c, k)) :
    utf8D l = (utf8D (l.drop k)).map (c :: ·) := by
  match l with
  | [] => simp [decodeOne] at h
  | b :: r =>
    have hk := decodeOne_pos h
    simp only [utf8D, List.length_cons, utf8DGo, h]
    congr 1
    apply utf8DGo_fuel
    · simp only [List.length_drop, List.length_cons] at hk ⊢; omega
    · exact le_rfl

theorem utf8D_none {l : List ℕ} (h : decodeOne l = none) (hne : l ≠ []) :
    utf8D l = none := by
  match l with
  | [] => exact absurd rfl hne
  | b :: r => simp only [utf8D, List.length_cons, utf8DGo, h]

/-- Decoding a valid prefix off a valid byte string leaves a valid byte
string: if `b1` decodes strictly and so does `b1 ++ b2`, then `b2` decodes
strictly and the decodings concatenate. -/
theorem utf8D_cancel_aux : ∀ (n : ℕ) (b1 b2 s1 s : List ℕ), b1.length ≤ n →
    utf8D b1 = some s1 → utf8D (b1 ++ b2) = some s →
    ∃ s2, utf8D b2 = some s2 ∧ s = s1 ++ s2 := by
  intro n
  induction n with
  | zero =>
    intro b1 b2 s1 s h1 hb1 hb
    have : b1 = [] := List.eq_nil_of_length_eq_zero (Nat.le_zero.mp h1)
    subst this
    simp only [utf8D, utf8DGo, List.length_nil, Option.some.injEq] at hb1
    subst hb1
    exact ⟨s, by simpa using hb, by simp⟩
  | succ m ih =>
    intro b1 b2 s1 s h1 hb1 hb
    cases hdec : decodeOne b1 with
    | none =>
      match b1 with
      | [] =>
        simp only [utf8D, utf8DGo, List.length_nil, Option.some.injEq] at hb1
        subst hb1
        exact ⟨s, by simpa using hb, by simp⟩
      | x :: r => rw [utf8D_none hdec (by simp)] at hb1; cases hb1
    | some ck =>
      obtain ⟨c, k⟩ := ck
      have hk := decodeOne_pos hdec
      rw [utf8D_decode hdec] at hb1
      obtain ⟨t1, ht1, hs1⟩ := Option.map_eq_some'.mp hb1
      rw [utf8D_decode (decodeOne_append hdec)] at hb
      obtain ⟨t, ht, hs⟩ := Option.map_eq_some'.mp hb
      rw [List.drop_append_of_le_length hk.2] at ht
      have hlen : (b1.drop k).length ≤ m := by
        simp only [List.length_drop]
        omega
      obtain ⟨s2, hs2, hts⟩ := ih (b1.drop k) b2 t1 t hlen ht1 ht
      exact ⟨s2, hs2, by rw [← hs, ← hs1, hts]; rfl⟩

theorem utf8D_cancel {b1 b2 s1 s : List ℕ}
    (hb1 : utf8D b1 = some s1) (hb : utf8D (b1 ++ b2) = some s) :
    ∃ s2, utf8D b2 = some s2 ∧ s = s1 ++ s2 :=
  utf8D_cancel_aux b1.length b1 b2 s1 s le_rfl hb1 hb

/-- On bytes that decode strictly, the lenient decoder agrees with the
strict decoder. -/
theorem utf8DLenientGo_agrees : ∀ (fuel : ℕ) (l s : List ℕ),
    utf8DGo fuel l = some s → utf8DLenientGo fuel l = s := by
  intro fuel
  induction fuel with
  | zero =>
    intro l s h
    match l with
    | [] => simp only [utf8DGo, Option.some.injEq] at h; simp [utf8DLenientGo, h]
    | b :: r => simp [utf8DGo] at h
  | succ f ih =>
    intro l s h
    match l with
    | [] => simp only [utf8DGo, Option.some.injEq] at h; simp [utf8DLenientGo, h]
    | b :: r =>
      cases hdec : decodeOne (b :: r) with
      | none => simp [utf8DGo, hdec] at h
      | some ck =>
        obtain ⟨c, k⟩ := ck
        simp only [utf8DGo, hdec] at h
        obtain ⟨t, ht, hs⟩ := Option.map_eq_some'.mp h
        simp only [utf8DLenientGo, hdec]
        rw [ih _ _ ht, ← hs]

theorem utf8DLenient_agrees {l s : List ℕ} (h : utf8D l = some s) :
    utf8DLenient l = s :=
  utf8DLenientGo_agrees l.length l s h

theorem contentsOf_append (a b : List Event) :
    contentsOf (a ++ b) = contentsOf a ++ contentsOf b := by
  induction a with
  | nil => rfl
  | cons e es ih => cases e <;> simp [contentsOf, ih]

theorem genIter_tokensSent (debug : Bool) (sf rate elapsed : ℚ) (s : LoopState)
    (tok : List ℕ) :
    s.tokensSent ≤ ((genIter debug sf rate elapsed s tok).2).tokensSent ∧
    ((genIter debug sf rate elapsed s tok).2).tokensSent
        + ((genIter debug sf rate elapsed s tok).2).buffer.length
      = s.tokensSent + s.buffer.length + 1 := by
  cases h : utf8D (s.buffer.flatten ++ tok) with
  | none => simp [genIter, h]; omega
  | some chunk => simp [genIter, h]; omega

theorem genLoop_tokensSent (debug : Bool) (sf rate : ℚ) (clock : ℕ → ℚ) :
    ∀ (toks : List (List ℕ)) (iter : ℕ) (s : LoopState),
    s.tokensSent ≤ ((genLoop debug sf rate clock iter s toks).2).tokensSent ∧
    ((genLoop debug sf rate clock iter s toks).2).tokensSent
        + ((genLoop debug sf rate clock iter s toks).2).buffer.length
      = s.tokensSent + s.buffer.length + toks.length := by
  intro toks
  induction toks with
  | nil => intro iter s; simp [genLoop]
  | cons t rest ih =>
    intro iter s
    have h1 := genIter_tokensSent debug sf rate (clock iter) s t
    have h2 := ih (iter + 1) (genIter debug sf rate (clock iter) s t).2
    simp only [genLoop, List.length_cons]
    constructor
    · exact le_trans h1.1 h2.1
    · omega

theorem genLoop_append (debug : Bool) (sf rate : ℚ) (clock : ℕ → ℚ) :
    ∀ (l1 l2 : List (List ℕ)) (iter : ℕ) (s : LoopState),
    (genLoop debug sf rate clock iter s (l1 ++ l2)).2 =
      (genLoop debug sf rate clock (iter + l1.length)
        (genLoop debug sf rate clock iter s l1).2 l2).2 := by
  intro l1
  induction l1 with
  | nil => intro l2 iter s; simp [genLoop]
  | cons t rest ih =>
    intro l2 iter s
    simp only [List.cons_append, genLoop, List.length_cons, List.append_eq]
    rw [ih]
    have : iter + 1 + rest.length = iter + (rest.length + 1) := by omega
    rw [this]

theorem genIter_debug (sf rate elapsed : ℚ) (s : LoopState) (tok : List ℕ) :
    ((genIter true sf rate elapsed s tok).1.1 = (genIter false sf rate elapsed s tok).1.1) ∧
    ((genIter true sf rate elapsed s tok).2 = (genIter false sf rate elapsed s tok).2) := by
  have hrc : (rateControl true sf rate s.lastDelay s.tokensSent elapsed).1
        = (rateControl false sf rate s.lastDelay s.tokensSent elapsed).1 ∧
      (rateControl true sf rate s.lastDelay s.tokensSent elapsed).2.1
        = (rateControl false sf rate s.lastDelay s.tokensSent elapsed).2.1 := by
    simp only [rateControl]
    split_ifs <;> simp
  cases h : utf8D (s.buffer.flatten ++ tok) with
  | none => simp [genIter, h, hrc.1, hrc.2]
  | some chunk => simp [genIter, h, hrc.1, hrc.2]

theorem genLoop_debug (sf rate : ℚ) (clock : ℕ → ℚ) :
    ∀ (toks : List (List ℕ)) (iter : ℕ) (s : LoopState),
    ((genLoop true sf rate clock iter s toks).1.1
        = (genLoop false sf rate clock iter s toks).1.1) ∧
    ((genLoop true sf rate clock iter s toks).2
        = (genLoop false sf rate clock iter s toks).2) := by
  intro toks
  induction toks with
  | nil => intro iter s; simp [genLoop]
  | cons t rest ih =>
    intro iter s
    have h1 := genIter_debug sf rate (clock iter) s t
    have h2 := ih (iter + 1) (genIter true sf rate (clock iter) s t).2
    simp only [genLoop]
    rw [h1.1, h1.2] at *
    exact ⟨by rw [h2.1], h2.2⟩

/-- Core lossless-replay invariant: if the bytes of the current buffer
followed by the bytes of the remaining tokens decode strictly to `S`, then
the chunks emitted by the rest of the loop plus the final flush concatenate
exactly to `S`. -/
theorem genLoop_contents (debug : Bool) (sf rate : ℚ) (clock : ℕ → ℚ) :
    ∀ (toks : List (List ℕ)) (iter : ℕ) (b : List (List ℕ)) (sent : ℕ) (ld : ℚ)
      (S : List ℕ),
    utf8D (b.flatten ++ toks.flatten) = some S →
    contentsOf ((genLoop debug sf rate clock iter ⟨b, sent, ld⟩ toks).1.1
        ++ (genFinal ((genLoop debug sf rate clock iter ⟨b, sent, ld⟩ toks).2)).1) = S := by
  intro toks
  induction toks with
  | nil =>
    intro iter b sent ld S h
    simp only [List.flatten_nil, List.append_nil] at h
    by_cases hb : b = []
    · subst hb
      simp only [utf8D, utf8DGo, List.flatten_nil, List.length_nil,
        Option.some.injEq] at h
      simp [genLoop, genFinal, contentsOf, ← h]
    · simp [genLoop, genFinal, hb, contentsOf, utf8DLenient_agrees h]
  | cons t rest ih =>
    intro iter b sent ld S h
    have hflat : b.flatten ++ (t :: rest).flatten = (b.flatten ++ t) ++ rest.flatten := by
      simp
    rw [hflat] at h
    cases hd : utf8D (b.flatten ++ t) with
    | some chunk =>
      obtain ⟨S2, hS2, hSeq⟩ := utf8D_cancel hd h
      have := ih (iter + 1) [] (sent + (b ++ [t]).length) ((rateControl debug sf rate ld sent (clock iter)).2.1) S2 (by simpa using hS2)
      simp only [genLoop, genIter, hd]
      cases hrc : (rateControl debug sf rate ld sent (clock iter)).1 <;>
        simp_all [contentsOf_append, contentsOf]
    | none =>
      have := ih (iter + 1) (b ++ [t]) sent ((rateControl debug sf rate ld sent (clock iter)).2.1) S (by simpa using h)
      simp only [genLoop, genIter, hd]
      cases hrc : (rateControl debug sf rate ld sent (clock iter)).1 <;>
        simp_all [contentsOf_append, contentsOf]

theorem head_filter_find {α : Type} (l : List α) (p : α → Bool) :
    (l.filter p).head? = l.find? p := by
  induction l with
  | nil => rfl
  | cons a t ih => by_cases h : p a <;> simp [List.filter_cons, List.find?, h, ih]

/-- C1: for every response text `T` (given as the code points its UTF-8
bytes decode to) and every token sequence for `T` (any token list whose
concatenated bytes decode strictly to `T`, as `ENCODER.encode` produces),
the concatenation, in emission order, of the content fields of all SSE
chunks yielded by the streaming generator equals `T` exactly, for every
model name, debug flag, smoothing factor and clock behaviour. -/
theorem c1_lossless_replay (model_name : String) (debug_mode : Bool)
    (smoothing_factor : ℚ) (clock : ℕ → ℚ) (toks : List (List ℕ)) (T : List ℕ)
    (h : utf8D toks.flatten = some T) :
    contentsOf (generate_streaming_response model_name debug_mode smoothing_factor
      clock toks).1 = T := by
  have hmain := genLoop_contents debug_mode smoothing_factor (resolveSpeed model_name)
    clock toks 0 [] 0 0 T (by simpa using h)
  simpa [generate_streaming_response, contentsOf_append] using hmain

theorem c1_lossless_replay_witness :
    utf8D ([[104], [195], [169]] : List (List ℕ)).flatten = some [104, 233] ∧
    contentsOf (generate_streaming_response "o1" false (7/10) (fun _ => 0)
      [[104], [195], [169]]).1 = [104, 233] :=
  ⟨by decide,
    c1_lossless_replay "o1" false (7/10) (fun _ => 0) [[104], [195], [169]] [104, 233]
      (by decide)⟩

/-- C2: at every loop step that is ahead of schedule
(`tokens_sent > expected_tokens` with `expected_tokens = elapsed * rate`),
the step sleeps for exactly
`max (α * last_delay + (1 - α) * (tokens_sent - expected_tokens) / rate) 0`
and stores that value as the new `last_delay`. -/
theorem c2_ahead_sleep_formula (debug : Bool) (sf rate elapsed : ℚ)
    (s : LoopState) (tok : List ℕ)
    (h : (s.tokensSent : ℚ) > elapsed * rate) :
    ((genIter debug sf rate elapsed s tok).1.1).head? =
      some (Event.sleep (max (sf * s.lastDelay
        + (1 - sf) * (((s.tokensSent : ℚ) - elapsed * rate) / rate)) 0)) ∧
    ((genIter debug sf rate elapsed s tok).2).lastDelay =
      max (sf * s.lastDelay + (1 - sf) * (((s.tokensSent : ℚ) - elapsed * rate) / rate)) 0 := by
  cases hd : utf8D (s.buffer.flatten ++ tok) with
  | none => simp [genIter, rateControl, h, hd]
  | some chunk => simp [genIter, rateControl, h, hd]

theorem c2_ahead_sleep_formula_witness :
    ((genIter false (7/10) 15 0 ⟨[], 1, 0⟩ [104]).1.1).head? =
      some (Event.sleep (1/50)) ∧
    ((genIter false (7/10) 15 0 ⟨[], 1, 0⟩ [104]).2).lastDelay = 1/50 := by
  have h := c2_ahead_sleep_formula false (7/10) 15 0 ⟨[], 1, 0⟩ [104] (by norm_num)
  norm_num [max_def] at h
  exact h

/-- C3, counterexample to the claim as stated: with a synthetic clock stuck
at elapsed time 0 and target rate 15 (model `"slow"`), the second loop step
has `tokens_sent = 1` and `expected_tokens = 0 * 15 = 0`, so
`tokens_sent` is within 2 tokens of `expected_tokens`, yet the step sleeps
for `1/50` of a second (the code's dead band covers only the behind-schedule
side; any step with `tokens_sent > expected_tokens` sleeps). -/
theorem c3_deadband_cex :
    ((generate_streaming_response "slow" false (7/10) (fun _ => 0) [[104], [105]]).1 =
      [Event.emit [104], Event.sleep (1/50), Event.emit [105]]) ∧
    |(1 : ℚ) - 0 * 15| ≤ 2 ∧ ¬((1 : ℚ)/50 = 0) := by
  refine ⟨?_, by norm_num, by norm_num⟩
  norm_num [generate_streaming_response, genLoop, genIter, genFinal, rateControl, resolveSpeed,
    MODEL_OUTPUT_SPEEDS, DEFAULT_OUTPUT_SPEED, strContains, utf8D, utf8DGo, decodeOne, contB]

/-- C3 as amended: a loop step introduces no sleep call exactly when it is
not ahead of schedule, i.e. whenever `tokens_sent ≤ expected_tokens`
(which includes the behind-schedule dead band
`expected_tokens - 2 ≤ tokens_sent ≤ expected_tokens`); steps with
`tokens_sent > expected_tokens` sleep even within 2 tokens of schedule. -/
theorem c3_no_sleep_when_not_ahead (debug : Bool) (sf rate elapsed : ℚ)
    (s : LoopState) (tok : List ℕ)
    (h : (s.tokensSent : ℚ) ≤ elapsed * rate) :
    ∀ e ∈ (genIter debug sf rate elapsed s tok).1.1, e.isSleep = false := by
  have hrc : (rateControl debug sf rate s.lastDelay s.tokensSent elapsed).1 = none := by
    simp only [rateControl]
    rw [if_neg (not_lt.mpr h)]
    split_ifs <;> rfl
  intro e he
  cases hd : utf8D (s.buffer.flatten ++ tok) with
  | none => simp [genIter, hd, hrc] at he
  | some chunk => simp [genIter, hd, hrc] at he; simp [he, Event.isSleep]

theorem c3_no_sleep_when_not_ahead_witness :
    (((14 : ℕ) : ℚ) ≤ 1 * 15) ∧
    ∀ e ∈ (genIter false (7/10) 15 1 ⟨[], 14, 5⟩ [104]).1.1, e.isSleep = false :=
  ⟨by norm_num,
    c3_no_sleep_when_not_ahead false (7/10) 15 1 ⟨[], 14, 5⟩ [104] (by norm_num)⟩

/-- C4, counterexample to the claim as stated: a request with
`smoothing_factor = 1.5` (outside `[0,1]`) against a store containing a
matching exchange is **not** rejected — no `InvalidParameterError` exists
anywhere in the endpoint — and a streaming response is constructed and
returned with the out-of-range factor wired straight into the generator. -/
theorem c4_no_validation_cex :
    chat_completions [⟨"gpt-4o", "hello", "world"⟩]
        ⟨"hello", "gpt-4o", false, 3/2⟩ =
      Except.ok ⟨"world", "gpt-4o", false, 3/2⟩ ∧
    ¬((3 : ℚ)/2 ≤ 1) := by
  exact ⟨rfl, by norm_num⟩

/-- C4 as amended: the Session Endpoint performs no validation of
`smoothing_factor` (or `debug_mode`) at all; whether a request is rejected
depends only on the prompt/model lookup, so any `smoothing_factor` —
including values outside `[0,1]` — is accepted whenever a matching exchange
exists, and the only rejection the endpoint can produce is the 404. -/
theorem c4_acceptance_ignores_smoothing (db : List Conversation) (p m : String)
    (d1 d2 : Bool) (a1 a2 : ℚ) :
    (chat_completions db ⟨p, m, d1, a1⟩).isOk = (chat_completions db ⟨p, m, d2, a2⟩).isOk := by
  simp only [chat_completions]
  cases find_matching_response db p m <;> rfl

/-- C5, counterexample to the claim as stated: the store search is **not**
prompt-substring-only — `search_conversations` also matches the query
against the recorded response (`WHERE c.prompt LIKE ? OR c.response LIKE ?`).
With one recorded exchange whose prompt is `"xyz"` and whose response
contains `"abc"`, the locator answers a request for prompt `"abc"` with
that exchange's response, although no recorded prompt contains `"abc"`. -/
theorem c5_prompt_only_cex :
    find_matching_response [⟨"m", "xyz", "the abc answer"⟩] "abc" "m" =
      Except.ok "the abc answer" ∧
    strContains "xyz" "abc" = false := by
  exact ⟨rfl, by decide⟩

/-- C5 as amended: the Response Locator queries the store for recorded
exchanges whose prompt **or response** contains the request prompt as a
substring, keeps those whose stored model name is a substring of the
requested model identifier, and returns the response text of the first
match in the store's most-recent-first ordering — provided the search's
`LIMIT 100` window is not exceeded by the substring matches. -/
theorem c5_locator_first_match (db : List Conversation) (prompt model_name : String)
    (h : (db.filter
      (fun c => strContains c.prompt prompt || strContains c.response prompt)).length ≤ 100) :
    find_matching_response db prompt model_name = locator_policy db prompt model_name := by
  simp only [find_matching_response, search_conversations, locator_policy]
  rw [List.drop_zero, List.take_of_length_le h, List.filter_filter, ← head_filter_find]
  cases hl : db.filter (fun c => strContains model_name c.model_name &&
      (strContains c.prompt prompt || strContains c.response prompt)) with
  | nil => simp
  | cons c cs => simp

theorem c5_locator_first_match_witness :
    (([⟨"m", "xyz", "the abc answer"⟩] : List Conversation).filter
      (fun c => strContains c.prompt "abc" || strContains c.response "abc")).length ≤ 100 ∧
    find_matching_response [⟨"m", "xyz", "the abc answer"⟩] "abc" "m" =
      locator_policy [⟨"m", "xyz", "the abc answer"⟩] "abc" "m" :=
  ⟨by decide, c5_locator_first_match [⟨"m", "xyz", "the abc answer"⟩] "abc" "m" (by decide)⟩

/-- C7: a request whose prompt and model match no recorded exchange fails
with the 404 `HTTPException` ("Model and prompt not found in database"),
raised from `_find_matching_response` before the `StreamingResponse` is
constructed — the endpoint returns the error and no stream exists. -/
theorem c7_not_found_no_stream (db : List Conversation) (req : ChatRequest)
    (h : ∀ c ∈ db, ((strContains c.prompt req.prompt || strContains c.response req.prompt)
        && strContains req.model c.model_name) = false) :
    chat_completions db req = Except.error ⟨404, "Model and prompt not found in database"⟩ := by
  have hm : List.filter (fun c => strContains req.model c.model_name)
      (search_conversations db req.prompt 100 0) = [] := by
    rw [List.eq_nil_iff_forall_not_mem]
    intro c hc
    rw [List.mem_filter] at hc
    have h3 : c ∈ db ∧ (strContains c.prompt req.prompt || strContains c.response req.prompt) = true := by
      have h4 := hc.1
      unfold search_conversations at h4
      have h5 := List.mem_of_mem_take h4
      rw [List.drop_zero, List.mem_filter] at h5
      exact h5
    have h6 := h c h3.1
    rw [h3.2, hc.2] at h6
    simp at h6
  simp only [chat_completions, find_matching_response, hm]

theorem c7_not_found_no_stream_witness :
    (∀ c ∈ ([⟨"m", "p", "r"⟩] : List Conversation),
      ((strContains c.prompt "zz" || strContains c.response "zz")
        && strContains "other" c.model_name) = false) ∧
    chat_completions [⟨"m", "p", "r"⟩] ⟨"zz", "other", false, 7/10⟩ =
      Except.error ⟨404, "Model and prompt not found in database"⟩ :=
  ⟨by decide, c7_not_found_no_stream [⟨"m", "p", "r"⟩] ⟨"zz", "other", false, 7/10⟩ (by decide)⟩

/-- C8: within one streaming response, `tokens_sent` is monotonically
non-decreasing across loop iterations and never exceeds
`total_tokens = len(tokens)` at any observation point, including the
final-flush observation. -/
theorem c8_monotone_bounded (debug : Bool) (sf rate : ℚ) (clock : ℕ → ℚ)
    (toks : List (List ℕ)) (n m : ℕ) (hnm : n ≤ m) :
    sentAfter debug sf rate clock toks n ≤ sentAfter debug sf rate clock toks m ∧
    sentAfter debug sf rate clock toks m ≤ toks.length ∧
    sentAfter debug sf rate clock toks toks.length
      ≤ (genFinal ((genLoop debug sf rate clock 0 ⟨[], 0, 0⟩ toks).2)).2 ∧
    (genFinal ((genLoop debug sf rate clock 0 ⟨[], 0, 0⟩ toks).2)).2 ≤ toks.length := by
  have hbound : ∀ j : ℕ, sentAfter debug sf rate clock toks j ≤ toks.length := by
    intro j
    have hinv := genLoop_tokensSent debug sf rate clock (toks.take j) 0 ⟨[], 0, 0⟩
    simp at hinv
    have hlen : (toks.take j).length ≤ toks.length := by
      simp [List.length_take]
    unfold sentAfter
    omega
  have hmono : sentAfter debug sf rate clock toks n ≤ sentAfter debug sf rate clock toks m := by
    have hsplit : toks.take m = toks.take n ++ (toks.drop n).take (m - n) := by
      conv_lhs => rw [show m = n + (m - n) from by omega]
      rw [List.take_add]
    unfold sentAfter
    rw [hsplit, genLoop_append]
    exact (genLoop_tokensSent debug sf rate clock ((toks.drop n).take (m - n)) _ _).1
  have hfull : sentAfter debug sf rate clock toks toks.length
      = ((genLoop debug sf rate clock 0 ⟨[], 0, 0⟩ toks).2).tokensSent := by
    unfold sentAfter
    rw [List.take_length]
  have hinv2 := genLoop_tokensSent debug sf rate clock toks 0 ⟨[], 0, 0⟩
  refine ⟨hmono, hbound m, ?_, ?_⟩ <;>
    · rw [hfull] at *
      unfold genFinal
      split_ifs with hb <;> simp_all <;> omega

theorem c8_monotone_bounded_witness :
    (1 ≤ 2) ∧
    sentAfter false (7/10) 15 (fun _ => 0) [[104], [105]] 1
      ≤ sentAfter false (7/10) 15 (fun _ => 0) [[104], [105]] 2 :=
  ⟨by norm_num,
    (c8_monotone_bounded false (7/10) 15 (fun _ => 0) [[104], [105]] 1 2 (by norm_num)).1⟩

/-- C10: the sequence of stream events (sleeps and SSE chunks) yielded by
the streaming generator is identical whether `debug_mode` is true or false,
for every model name, smoothing factor, token sequence and clock behaviour:
the debug flag gates only the console log, never the emitted stream. -/
theorem c10_debug_noninterference (model_name : String) (sf : ℚ) (clock : ℕ → ℚ)
    (toks : List (List ℕ)) :
    (generate_streaming_response model_name true sf clock toks).1 =
      (generate_streaming_response model_name false sf clock toks).1 := by
  have h := genLoop_debug sf (resolveSpeed model_name) clock toks 0 ⟨[], 0, 0⟩
  simp [generate_streaming_response, h.1, h.2]

/-- C6, counterexample to the claim as stated: Python's `json.dumps` is
called with its default separators `(', ', ': ')`, so the emitted message
contains a space after every `:` and is **not** byte-identical to the
spec's space-free exact shape; at chunk text `"hi"` the framer output is
`data: {"choices": [{"delta": {"content": "hi"}}]}` followed by two
newlines, not the space-free form. -/
theorem c6_exact_shape_cex :
    format_sse_message "hi" ≠ sse_shape_spec (pyJsonOfString "hi") ∧
    format_sse_message "hi" =
      "data: \x7b\"choices\": [\x7b\"delta\": \x7b\"content\": \"hi\"\x7d\x7d]\x7d\n\n" := by
  exact ⟨by decide, by decide⟩

/-- C6 as amended: every emitted stream message has exactly the wire shape
`data: {"choices": [{"delta": {"content": <json string>}}]}` followed by two
newlines — the shape the spec displays, except with `json.dumps`'s default
separators (a space after each `:` and after each `,`), where
`<json string>` is the `json.dumps` serialisation of the chunk text. -/
theorem c6_sse_wire_shape (content : String) :
    format_sse_message content =
      "data: \x7b\"choices\": [\x7b\"delta\": \x7b\"content\": " ++ pyJsonOfString content ++
        "\x7d\x7d]\x7d\n\n" := by
  simp only [format_sse_message, jdump, List.map, String.intercalate, String.intercalate.go]
  rw [show pyJsonOfString "choices" = "\"choices\"" from by decide,
    show pyJsonOfString "delta" = "\"delta\"" from by decide,
    show pyJsonOfString "content" = "\"content\"" from by decide]
  simp [String.append_assoc]
  simp [← String.append_assoc]
